import Mathlib

/-!
Verification of the dataFusion position-estimation core.

Shallow embedding of `src/bayesian_filter.py`, `src/kalman_filter.py` and
`src/particle_filter.py`.  Numeric values are modelled exactly, over an
arbitrary linear ordered field with a floor function (instantiated at `ℚ`
for concrete evaluation and at `ℝ` where transcendental functions appear).
Python `int(q)` is truncation toward zero; NumPy array reads that can go
out of bounds are modelled with `Option`; the `scipy.optimize.minimize`
call and the per-particle random draws are taken as explicit functional
parameters, since they are external to the repository.
-/

namespace DataFusion

variable {K : Type} [LinearOrderedField K] [FloorRing K]

/-- Python `int()` applied to a real quantity: truncation toward zero. -/
def pyInt (q : K) : ℤ := if 0 ≤ q then ⌊q⌋ else -⌊-q⌋

/-- Constructor data of `FloorPlanPDF.__init__` (outer width, outer height,
grid resolution, all in meters). -/
structure FloorPlanPDF (K : Type) where
  width_m : K
  height_m : K
  resolution : K

namespace FloorPlanPDF

/-- Wall thickness constant from `_create_simple_floor_plan` (0.3 m). -/
def wall_thickness : K := 3 / 10

/-- Embeds `self.grid_width = int(width_m / resolution)`. -/
def grid_width (fp : FloorPlanPDF K) : ℤ := pyInt (fp.width_m / fp.resolution)

/-- Embeds `self.grid_height = int(height_m / resolution)`. -/
def grid_height (fp : FloorPlanPDF K) : ℤ := pyInt (fp.height_m / fp.resolution)

/-- Embeds `x_start = max(0, min(int(wall_thickness / resolution), grid_width - 1))`. -/
def x_start (fp : FloorPlanPDF K) : ℤ :=
  max 0 (min (pyInt ((wall_thickness : K) / fp.resolution)) (fp.grid_width - 1))

/-- Embeds the clamped `x_end` of `_create_simple_floor_plan`. -/
def x_end' (fp : FloorPlanPDF K) : ℤ :=
  max (fp.x_start + 1) (min (pyInt ((fp.width_m - wall_thickness) / fp.resolution)) fp.grid_width)

/-- Embeds `y_start = max(0, min(int(wall_thickness / resolution), grid_height - 1))`. -/
def y_start (fp : FloorPlanPDF K) : ℤ :=
  max 0 (min (pyInt ((wall_thickness : K) / fp.resolution)) (fp.grid_height - 1))

/-- Embeds the clamped `y_end` of `_create_simple_floor_plan`. -/
def y_end' (fp : FloorPlanPDF K) : ℤ :=
  max (fp.y_start + 1) (min (pyInt ((fp.height_m - wall_thickness) / fp.resolution)) fp.grid_height)

/-- Cell value of the grid built by `_create_simple_floor_plan`: the array is
filled with 0.01 and the interior rectangle `[x_start, x_end) × [y_start, y_end)`
is overwritten with 1.0 (`grid[y_start:y_end, x_start:x_end] = 1.0`). -/
def gridVal (fp : FloorPlanPDF K) (row col : ℤ) : K :=
  if fp.x_start ≤ col ∧ col < fp.x_end' ∧ fp.y_start ≤ row ∧ row < fp.y_end' then 1
  else 1 / 100

/-- Embeds `FloorPlanPDF.get_probability`: convert `(x, y)` to grid indices via
`int(x / resolution)`, return the stored cell when both indices are in bounds,
else the out-of-bounds constant 0.01. -/
def get_probability (fp : FloorPlanPDF K) (x y : K) : K :=
  let gx := pyInt (x / fp.resolution)
  let gy := pyInt (y / fp.resolution)
  if 0 ≤ gx ∧ gx < fp.grid_width ∧ 0 ≤ gy ∧ gy < fp.grid_height then fp.gridVal gy gx
  else 1 / 100

end FloorPlanPDF

/-- Floor plan produced by the constructor for an outer width of `nW` cells and
an outer height of `nH` cells at the default resolution 0.1 m (so the metric
size is `nW/10` by `nH/10` meters). -/
def roomFP (K : Type) [LinearOrderedField K] [FloorRing K] (nW nH : ℕ) : FloorPlanPDF K :=
  ⟨(nW : K) / 10, (nH : K) / 10, 1 / 10⟩

/-- Sample point number `i` of the wall-crossing guard in
`BayesianNavigationFilter.update`: with `t = i / n_samples` and `n_samples = 10`,
the point `prev + t * (P - prev)` on the segment from the previous position to
the forward-projected point. -/
def samplePoint (xp yp px py : K) (i : ℕ) : K × K :=
  (xp + ((i : K) / 10) * (px - xp), yp + ((i : K) / 10) * (py - yp))

/-- Embeds the guard loop of `BayesianNavigationFilter.update` (lines 349-360):
sample the segment at `t = i/10` for `i = 1, ..., 10` and report whether any
sampled floor-plan probability falls below the wall threshold 0.1. -/
def path_crosses_wall (fp : FloorPlanPDF K) (xp yp px py : K) : Bool :=
  (List.range 10).any fun k =>
    decide (fp.get_probability (samplePoint xp yp px py (k + 1)).1
      (samplePoint xp yp px py (k + 1)).2 < 1 / 10)

/-- Mutable state of `BayesianNavigationFilter` that `update` touches:
the committed estimate `current_estimate` and `position_history`. -/
structure BayesianState (K : Type) where
  x : K
  y : K
  position_history : List (K × K)

namespace BayesianNavigationFilter

/-- Embeds `BayesianNavigationFilter.update`.  The trigonometric projection and
the `scipy.optimize.minimize` call are external to the repository, so they enter
as functional parameters `sinF`, `cosF` and `optimize` (the latter maps the
starting point `x0` to the point the optimizer returns; its further arguments
are fixed inside one update call). -/
def update (fp : FloorPlanPDF K) (sinF cosF : K → K) (optimize : K × K → K × K)
    (heading stride_length : K) (st : BayesianState K) : BayesianState K :=
  let x_prev := st.x
  let y_prev := st.y
  let imu_x := x_prev + stride_length * sinF heading
  let imu_y := y_prev + stride_length * cosF heading
  let x0 := if path_crosses_wall fp x_prev y_prev imu_x imu_y then (x_prev, y_prev)
            else (imu_x, imu_y)
  let est := optimize x0
  let h1 := st.position_history ++ [est]
  ⟨est.1, est.2, if 10 < h1.length then h1.drop 1 else h1⟩

end BayesianNavigationFilter

/-- State of `ParticleFilter`: the fixed particle count `n_particles`, the
particle positions and the parallel weight list. -/
structure ParticleFilter (K : Type) where
  n_particles : ℕ
  particles : List (K × K)
  weights : List K

namespace ParticleFilter

/-- Embeds `ParticleFilter.predict`: every particle is moved by
`stride * sin(heading + headingNoise)` plus positional noise (and likewise with
`cos` for the y component).  The random draws are the explicit noise streams
`nh`, `nx`, `ny` (one triple per particle index). -/
def predict (sinF cosF : K → K) (nh nx ny : ℕ → K) (stride_length heading : K)
    (pf : ParticleFilter K) : ParticleFilter K :=
  ⟨pf.n_particles,
   pf.particles.mapIdx fun i p =>
     (p.1 + (stride_length * sinF (heading + nh i) + nx i),
      p.2 + (stride_length * cosF (heading + nh i) + ny i)),
   pf.weights⟩

/-- Embeds `ParticleFilter.update` (the reweight step): multiply each weight by
the floor-plan probability at the particle, then normalize; when the total
collapses to zero, reset to the uniform vector `1/N` instead of dividing. -/
def update (fp : FloorPlanPDF K) (pf : ParticleFilter K) : ParticleFilter K :=
  let w1 := List.zipWith (fun (p : K × K) w => w * fp.get_probability p.1 p.2)
    pf.particles pf.weights
  let weight_sum := w1.sum
  ⟨pf.n_particles, pf.particles,
   if 0 < weight_sum then w1.map fun w => w / weight_sum
   else List.replicate pf.n_particles ((1 : K) / (pf.n_particles : K))⟩

/-- Embeds `np.cumsum` on the weight list (with running total `acc`). -/
def cumsum : List K → K → List K
  | [], _ => []
  | w :: ws, acc => (acc + w) :: cumsum ws (acc + w)

/-- Embeds the `while` loop of the systematic-resampling branch of
`ParticleFilter.resample`: `positions[i] = (i + u) / N` against the cumulative
weights `c`; reads out of bounds (and fuel exhaustion, which cannot occur with
the fuel supplied by `systematic`) give `none`, modelling an IndexError or a
hung loop. -/
def sysAux (u : K) (c : List K) (parts : List (K × K)) (N : ℕ) :
    ℕ → ℕ → ℕ → List (K × K) → Option (List (K × K))
  | 0, _, _, _ => none
  | fuel + 1, i, j, acc =>
    if i < N then
      match c.get? j, parts.get? j with
      | some cj, some pj =>
        if ((i : K) + u) / (N : K) < cj then sysAux u c parts N fuel (i + 1) j (acc ++ [pj])
        else sysAux u c parts N fuel i (j + 1) acc
      | _, _ => none
    else some acc

/-- The systematic-resampling branch: new particle list produced by the loop,
from one uniform draw `u` in `[0, 1)`. -/
def systematic (u : K) (pf : ParticleFilter K) : Option (List (K × K)) :=
  sysAux u (cumsum pf.weights 0) pf.particles pf.n_particles (2 * pf.n_particles + 2) 0 0 []

/-- Embeds `ParticleFilter.resample`: compute the effective sample size
`1 / Σ w².` and resample only when it is below `N / 2`, in which case the
weights are reset to uniform. -/
def resample (u : K) (pf : ParticleFilter K) : Option (ParticleFilter K) :=
  let n_eff := 1 / (pf.weights.map fun w => w ^ 2).sum
  if n_eff < (pf.n_particles : K) / 2 then
    (systematic u pf).map fun ps =>
      ⟨pf.n_particles, ps, List.replicate pf.n_particles ((1 : K) / (pf.n_particles : K))⟩
  else some pf

/-- Embeds `ParticleFilter.update_stride`: `predict`, then `update`, then
`resample`. -/
def update_stride (fp : FloorPlanPDF K) (sinF cosF : K → K) (nh nx ny : ℕ → K)
    (u : K) (stride_length heading : K) (pf : ParticleFilter K) :
    Option (ParticleFilter K) :=
  resample u (update fp (predict sinF cosF nh nx ny stride_length heading pf))

end ParticleFilter

namespace KalmanFilter

/-- Process noise magnitude `q = 0.1` from `KalmanFilter.__init__`. -/
def q_noise : K := 1 / 10

/-- Measurement noise `r = 0.5` from `KalmanFilter.__init__`. -/
def r_noise : K := 1 / 2

/-- Constant-velocity state transition matrix `F` built in `__init__`. -/
def F (dt : K) : Matrix (Fin 4) (Fin 4) K :=
  !![1, 0, dt, 0; 0, 1, 0, dt; 0, 0, 1, 0; 0, 0, 0, 1]

/-- Process noise covariance `Q` built in `__init__`. -/
def Q (dt : K) : Matrix (Fin 4) (Fin 4) K :=
  !![q_noise * dt ^ 4 / 4, 0, q_noise * dt ^ 3 / 2, 0;
     0, q_noise * dt ^ 4 / 4, 0, q_noise * dt ^ 3 / 2;
     q_noise * dt ^ 3 / 2, 0, q_noise * dt ^ 2, 0;
     0, q_noise * dt ^ 3 / 2, 0, q_noise * dt ^ 2]

/-- Measurement noise covariance `R = eye(2) * r**2` from `__init__`. -/
def R : Matrix (Fin 2) (Fin 2) K := !![r_noise ^ 2, 0; 0, r_noise ^ 2]

/-- Measurement matrix `H` (position is observed) from `__init__`. -/
def H : Matrix (Fin 2) (Fin 4) K := !![1, 0, 0, 0; 0, 1, 0, 0]

/-- Mutable state of `KalmanFilter`: state vector `x`, covariance `P`,
fixed time step `dt`. -/
structure State (K : Type) where
  x : Fin 4 → K
  P : Matrix (Fin 4) (Fin 4) K
  dt : K

/-- Embeds `KalmanFilter.predict`: `x = F x`, `P = F P Fᵀ + Q`. -/
def predict (st : State K) : State K :=
  ⟨(F st.dt).mulVec st.x, F st.dt * st.P * (F st.dt).transpose + Q st.dt, st.dt⟩

/-- Explicit inverse of a 2-by-2 matrix (adjugate over determinant); this is the
value `np.linalg.inv` returns on an invertible innovation covariance. -/
def inv2 (S : Matrix (Fin 2) (Fin 2) K) : Matrix (Fin 2) (Fin 2) K :=
  (S 0 0 * S 1 1 - S 0 1 * S 1 0)⁻¹ • !![S 1 1, -S 0 1; -S 1 0, S 0 0]

/-- Embeds `KalmanFilter.update`: innovation, innovation covariance, Kalman
gain, then the standard linear correction of state and covariance. -/
def update (st : State K) (z : Fin 2 → K) : State K :=
  let y : Fin 2 → K := z - H.mulVec st.x
  let S : Matrix (Fin 2) (Fin 2) K := H * st.P * (H (K := K)).transpose + R
  let Kg : Matrix (Fin 4) (Fin 2) K := st.P * (H (K := K)).transpose * inv2 S
  ⟨st.x + Kg.mulVec y, (1 - Kg * H) * st.P, st.dt⟩

end KalmanFilter

namespace BayesianNavigationFilter

/-- Stride length uncertainty `sigma_stride = 0.1` from `__init__`. -/
noncomputable def sigma_stride : ℝ := 1 / 10

/-- Heading uncertainty `sigma_heading = 0.5` from `__init__`. -/
noncomputable def sigma_heading : ℝ := 1 / 2

/-- Floor plan weight `floor_plan_weight = 1000.0` from `__init__`. -/
noncomputable def floor_plan_weight : ℝ := 1000

/-- Epsilon `1e-10` added to every logarithm argument in
`posterior_probability`. -/
noncomputable def eps : ℝ := 1 / 10 ^ 10

/-- Density of `scipy.stats.multivariate_normal` with mean `(mx, my)` and
isotropic covariance `s2 * I` evaluated at `(x, y)`. -/
noncomputable def gauss2 (x y mx my s2 : ℝ) : ℝ :=
  Real.exp (-(((x - mx) ^ 2 + (y - my) ^ 2) / (2 * s2))) / (2 * Real.pi * s2)

/-- Embeds `p_stride_circle`: Gaussian in the distance from the previous
position, centered at the measured stride length. -/
noncomputable def p_stride_circle (x y x_prev y_prev stride_length : ℝ) : ℝ :=
  Real.exp (-(1 / 2) *
      ((Real.sqrt ((x - x_prev) ^ 2 + (y - y_prev) ^ 2) - stride_length) / sigma_stride) ^ 2) /
    (sigma_stride * Real.sqrt (2 * Real.pi))

/-- Embeds `p_sensor_likelihood`: isotropic Gaussian centered at the IMU
prediction `prev + stride * (sin heading, cos heading)`. -/
noncomputable def p_sensor_likelihood (x y x_prev y_prev heading stride_length : ℝ) : ℝ :=
  gauss2 x y (x_prev + stride_length * Real.sin heading)
    (y_prev + stride_length * Real.cos heading) (sigma_heading ^ 2)

/-- Embeds `p_motion_model`: the uniform weak prior, constantly 1. -/
noncomputable def p_motion_model (_x _y : ℝ) : ℝ := 1

/-- Embeds `p_previous_posterior`: weak isotropic Gaussian around the committed
estimate, covariance `2 * I`. -/
noncomputable def p_previous_posterior (x y cx cy : ℝ) : ℝ := gauss2 x y cx cy 2

/-- Embeds `posterior_probability` (the log posterior of a candidate `(x, y)`),
with `(cx, cy)` the committed `current_estimate` read by
`p_previous_posterior`. -/
noncomputable def posterior_probability (fp : FloorPlanPDF ℝ)
    (x y x_prev y_prev heading stride_length cx cy : ℝ) : ℝ :=
  floor_plan_weight * Real.log (fp.get_probability x y + eps) +
    Real.log (p_stride_circle x y x_prev y_prev stride_length + eps) +
    Real.log (p_sensor_likelihood x y x_prev y_prev heading stride_length + eps) +
    Real.log (p_motion_model x y + eps) +
    Real.log (p_previous_posterior x y cx cy + eps)

end BayesianNavigationFilter

lemma pyInt_of_nonneg {q : K} (h : 0 ≤ q) : pyInt q = ⌊q⌋ := if_pos h

lemma pyInt_nonpos_of_neg {q : K} (h : q < 0) : pyInt q ≤ 0 := by
  unfold pyInt
  rw [if_neg (not_le.mpr h)]
  simp only [neg_nonpos]
  exact Int.floor_nonneg.mpr (by linarith)

namespace FloorPlanPDF

lemma get_probability_def (fp : FloorPlanPDF K) (x y : K) :
    fp.get_probability x y =
      if 0 ≤ pyInt (x / fp.resolution) ∧ pyInt (x / fp.resolution) < fp.grid_width ∧
          0 ≤ pyInt (y / fp.resolution) ∧ pyInt (y / fp.resolution) < fp.grid_height then
        fp.gridVal (pyInt (y / fp.resolution)) (pyInt (x / fp.resolution))
      else 1 / 100 := rfl

lemma gridVal_eq_or (fp : FloorPlanPDF K) (row col : ℤ) :
    fp.gridVal row col = 1 ∨ fp.gridVal row col = 1 / 100 := by
  unfold gridVal
  split
  · exact Or.inl rfl
  · exact Or.inr rfl

lemma get_probability_eq_or (fp : FloorPlanPDF K) (x y : K) :
    fp.get_probability x y = 1 ∨ fp.get_probability x y = 1 / 100 := by
  rw [get_probability_def]
  split
  · exact gridVal_eq_or ..
  · exact Or.inr rfl

lemma get_probability_bounds (fp : FloorPlanPDF K) (x y : K) :
    1 / 100 ≤ fp.get_probability x y ∧ fp.get_probability x y ≤ 1 := by
  rcases get_probability_eq_or fp x y with h | h <;> rw [h] <;> norm_num

lemma get_probability_pos (fp : FloorPlanPDF K) (x y : K) : 0 < fp.get_probability x y :=
  lt_of_lt_of_le (by norm_num) (get_probability_bounds fp x y).1

end FloorPlanPDF

lemma roomFP_resolution (nW nH : ℕ) : (roomFP K nW nH).resolution = 1 / 10 := rfl

lemma roomFP_grid_width (nW nH : ℕ) : (roomFP K nW nH).grid_width = nW := by
  have h : ((nW : K) / 10) / (1 / 10) = (nW : K) := by field_simp
  unfold FloorPlanPDF.grid_width roomFP
  dsimp only
  rw [h, pyInt_of_nonneg (by positivity), Int.floor_natCast]

lemma roomFP_grid_height (nW nH : ℕ) : (roomFP K nW nH).grid_height = nH := by
  have h : ((nH : K) / 10) / (1 / 10) = (nH : K) := by field_simp
  unfold FloorPlanPDF.grid_height roomFP
  dsimp only
  rw [h, pyInt_of_nonneg (by positivity), Int.floor_natCast]

lemma roomFP_t_cell : pyInt ((FloorPlanPDF.wall_thickness : K) / (roomFP K nW nH).resolution) = 3 := by
  have h : ((FloorPlanPDF.wall_thickness : K)) / (1 / 10) = (3 : K) := by
    unfold FloorPlanPDF.wall_thickness
    field_simp
  rw [roomFP_resolution, h, pyInt_of_nonneg (by norm_num)]
  norm_num

lemma roomFP_x_start (nW nH : ℕ) (h4 : 4 ≤ nW) : (roomFP K nW nH).x_start = 3 := by
  unfold FloorPlanPDF.x_start
  rw [roomFP_t_cell, roomFP_grid_width]
  omega

lemma roomFP_y_start (nW nH : ℕ) (h4 : 4 ≤ nH) : (roomFP K nW nH).y_start = 3 := by
  unfold FloorPlanPDF.y_start
  rw [roomFP_t_cell, roomFP_grid_height]
  omega

lemma roomFP_x_end (nW nH : ℕ) (h7 : 7 ≤ nW) : (roomFP K nW nH).x_end' = (nW : ℤ) - 3 := by
  unfold FloorPlanPDF.x_end'
  rw [roomFP_x_start nW nH (by omega), roomFP_grid_width]
  have h : ((roomFP K nW nH).width_m - FloorPlanPDF.wall_thickness) / (roomFP K nW nH).resolution
      = (((nW : ℤ) - 3 : ℤ) : K) := by
    show ((nW : K) / 10 - 3 / 10) / (1 / 10) = _
    push_cast
    field_simp
  have h7K : (7 : K) ≤ (nW : K) := by exact_mod_cast h7
  rw [h, pyInt_of_nonneg (by push_cast; linarith), Int.floor_intCast]
  omega

lemma roomFP_y_end (nW nH : ℕ) (h7 : 7 ≤ nH) : (roomFP K nW nH).y_end' = (nH : ℤ) - 3 := by
  unfold FloorPlanPDF.y_end'
  rw [roomFP_y_start nW nH (by omega), roomFP_grid_height]
  have h : ((roomFP K nW nH).height_m - FloorPlanPDF.wall_thickness) / (roomFP K nW nH).resolution
      = (((nH : ℤ) - 3 : ℤ) : K) := by
    show ((nH : K) / 10 - 3 / 10) / (1 / 10) = _
    push_cast
    field_simp
  have h7K : (7 : K) ≤ (nH : K) := by exact_mod_cast h7
  rw [h, pyInt_of_nonneg (by push_cast; linarith), Int.floor_intCast]
  omega

lemma roomFP_cell_eq (nW nH : ℕ) (x : K) (hx : 0 ≤ x) :
    pyInt (x / (roomFP K nW nH).resolution) = ⌊x * 10⌋ := by
  rw [roomFP_resolution, one_div, div_inv_eq_mul, pyInt_of_nonneg (by positivity)]

lemma roomFP_prob_interior (nW nH : ℕ) (hW : 7 ≤ nW) (hH : 7 ≤ nH) (x y : K)
    (hx1 : 3 / 10 < x) (hx2 : x < (nW : K) / 10 - 3 / 10)
    (hy1 : 3 / 10 < y) (hy2 : y < (nH : K) / 10 - 3 / 10) :
    (roomFP K nW nH).get_probability x y = 1 := by
  have hx0 : (0 : K) ≤ x := by linarith [show (0 : K) < 3 / 10 by norm_num]
  have hy0 : (0 : K) ≤ y := by linarith [show (0 : K) < 3 / 10 by norm_num]
  rw [FloorPlanPDF.get_probability_def, roomFP_cell_eq nW nH x hx0, roomFP_cell_eq nW nH y hy0,
    roomFP_grid_width, roomFP_grid_height]
  have hgx1 : 3 ≤ ⌊x * 10⌋ := Int.le_floor.mpr (by push_cast; linarith)
  have hgx2 : ⌊x * 10⌋ < (nW : ℤ) - 3 := Int.floor_lt.mpr (by push_cast; linarith)
  have hgy1 : 3 ≤ ⌊y * 10⌋ := Int.le_floor.mpr (by push_cast; linarith)
  have hgy2 : ⌊y * 10⌋ < (nH : ℤ) - 3 := Int.floor_lt.mpr (by push_cast; linarith)
  rw [if_pos ⟨by omega, by omega, by omega, by omega⟩]
  unfold FloorPlanPDF.gridVal
  rw [roomFP_x_start nW nH (by omega), roomFP_x_end nW nH hW, roomFP_y_start nW nH (by omega),
    roomFP_y_end nW nH hH]
  exact if_pos ⟨hgx1, hgx2, hgy1, hgy2⟩

lemma roomFP_prob_band (nW nH : ℕ) (hW : 7 ≤ nW) (hH : 7 ≤ nH) (x y : K)
    (hx0 : 0 < x) (hxW : x < (nW : K) / 10) (hy0 : 0 < y) (hyH : y < (nH : K) / 10)
    (hband : x < 3 / 10 ∨ (nW : K) / 10 - 3 / 10 < x ∨ y < 3 / 10 ∨ (nH : K) / 10 - 3 / 10 < y) :
    (roomFP K nW nH).get_probability x y = 1 / 100 := by
  rw [FloorPlanPDF.get_probability_def, roomFP_cell_eq nW nH x (le_of_lt hx0),
    roomFP_cell_eq nW nH y (le_of_lt hy0), roomFP_grid_width, roomFP_grid_height]
  have hgx0 : 0 ≤ ⌊x * 10⌋ := Int.floor_nonneg.mpr (by positivity)
  have hgxW : ⌊x * 10⌋ < (nW : ℤ) := Int.floor_lt.mpr (by push_cast; linarith)
  have hgy0 : 0 ≤ ⌊y * 10⌋ := Int.floor_nonneg.mpr (by positivity)
  have hgyH : ⌊y * 10⌋ < (nH : ℤ) := Int.floor_lt.mpr (by push_cast; linarith)
  rw [if_pos ⟨hgx0, hgxW, hgy0, hgyH⟩]
  unfold FloorPlanPDF.gridVal
  rw [roomFP_x_start nW nH (by omega), roomFP_x_end nW nH hW, roomFP_y_start nW nH (by omega),
    roomFP_y_end nW nH hH]
  rcases hband with h | h | h | h
  · have hlt : ⌊x * 10⌋ < 3 := Int.floor_lt.mpr (by push_cast; linarith)
    exact if_neg fun hc => absurd hc.1 (by omega)
  · have hge : (nW : ℤ) - 3 ≤ ⌊x * 10⌋ := Int.le_floor.mpr (by push_cast; linarith)
    exact if_neg fun hc => absurd hc.2.1 (by omega)
  · have hlt : ⌊y * 10⌋ < 3 := Int.floor_lt.mpr (by push_cast; linarith)
    exact if_neg fun hc => absurd hc.2.2.1 (by omega)
  · have hge : (nH : ℤ) - 3 ≤ ⌊y * 10⌋ := Int.le_floor.mpr (by push_cast; linarith)
    exact if_neg fun hc => absurd hc.2.2.2 (by omega)

lemma roomFP_prob_outside (nW nH : ℕ) (hW : 4 ≤ nW) (hH : 4 ≤ nH) (x y : K)
    (hout : x < 0 ∨ (nW : K) / 10 < x ∨ y < 0 ∨ (nH : K) / 10 < y) :
    (roomFP K nW nH).get_probability x y = 1 / 100 := by
  rw [FloorPlanPDF.get_probability_def]
  rcases hout with h | h | h | h
  · have hgx : pyInt (x / (roomFP K nW nH).resolution) ≤ 0 := by
      apply pyInt_nonpos_of_neg
      rw [roomFP_resolution]
      exact div_neg_of_neg_of_pos h (by norm_num)
    split
    case isTrue hc =>
      have hx0 : pyInt (x / (roomFP K nW nH).resolution) = 0 := le_antisymm hgx hc.1
      unfold FloorPlanPDF.gridVal
      rw [hx0, roomFP_x_start nW nH hW]
      exact if_neg fun hcc => absurd hcc.1 (by omega)
    case isFalse hc => rfl
  · have hx0 : (0 : K) ≤ x := le_of_lt (lt_of_le_of_lt (by positivity) h)
    rw [roomFP_cell_eq nW nH x hx0, roomFP_grid_width]
    have hge : (nW : ℤ) ≤ ⌊x * 10⌋ := Int.le_floor.mpr (by push_cast; linarith)
    exact if_neg fun hc => absurd hc.2.1 (by omega)
  · have hgy : pyInt (y / (roomFP K nW nH).resolution) ≤ 0 := by
      apply pyInt_nonpos_of_neg
      rw [roomFP_resolution]
      exact div_neg_of_neg_of_pos h (by norm_num)
    split
    case isTrue hc =>
      have hy0 : pyInt (y / (roomFP K nW nH).resolution) = 0 := le_antisymm hgy hc.2.2.1
      unfold FloorPlanPDF.gridVal
      rw [hy0, roomFP_y_start nW nH hH]
      exact if_neg fun hcc => absurd hcc.2.2.1 (by omega)
    case isFalse hc => rfl
  · have hy0 : (0 : K) ≤ y := le_of_lt (lt_of_le_of_lt (by positivity) h)
    rw [roomFP_cell_eq nW nH y hy0, roomFP_grid_height]
    have hge : (nH : ℤ) ≤ ⌊y * 10⌋ := Int.le_floor.mpr (by push_cast; linarith)
    exact if_neg fun hc => absurd hc.2.2.2 (by omega)

lemma roomFP_ten : FloorPlanPDF.mk (10 : ℚ) 10 (1 / 10) = roomFP ℚ 100 100 := by
  unfold roomFP
  norm_num

/-- C1: the scenario of the claim does not exist in the code.  The
`FloorPlanPDF` constructor called with a 10 m by 10 m outer size (the call made
by `test_wall_detection.py`) produces a floor plan whose probability at
(5.0, 5.0) is 1.0 — there is no wall band centered at x = 5.0, although the
test documents one (it prints that the value should be about 0.01).  Moreover,
under the navigation convention of `BayesianNavigationFilter.update`
(`Δx = stride·sin(heading)`, `Δy = stride·cos(heading)`), heading = 0 displaces
by (0, +stride): the walk of the scenario never moves toward x = 5.3 at all. -/
theorem C1_wall_band_missing :
    (FloorPlanPDF.mk (10 : ℚ) 10 (1 / 10)).get_probability 5 5 = 1 ∧
    ∀ stride_length : ℝ,
      stride_length * Real.sin 0 = 0 ∧ stride_length * Real.cos 0 = stride_length := by
  constructor
  · rw [roomFP_ten]
    exact roomFP_prob_interior 100 100 (by norm_num) (by norm_num) 5 5 (by norm_num)
      (by norm_num) (by norm_num) (by norm_num)
  · intro stride_length
    simp [Real.sin_zero, Real.cos_zero]

/-- C2, counterexample to the claim as stated: with outer width W = 10.05 m
(not a multiple of the resolution 0.1 m), outer height 10 m and wall thickness
0.3 m, the point (9.72, 5.0) lies strictly inside [0.3, W−0.3] × [0.3, 9.7],
yet `get_probability` returns 0.01 rather than the claimed 1.0. -/
theorem C2_counterexample :
    ((3 : ℚ) / 10 < 243 / 25 ∧ (243 : ℚ) / 25 < 201 / 20 - 3 / 10 ∧
      (3 : ℚ) / 10 < 5 ∧ (5 : ℚ) < 10 - 3 / 10) ∧
    (FloorPlanPDF.mk (201 / 20 : ℚ) 10 (1 / 10)).get_probability (243 / 25) 5 = 1 / 100 := by
  constructor
  · norm_num
  · norm_num [FloorPlanPDF.get_probability, FloorPlanPDF.gridVal, FloorPlanPDF.grid_width,
      FloorPlanPDF.grid_height, FloorPlanPDF.x_start, FloorPlanPDF.x_end', FloorPlanPDF.y_start,
      FloorPlanPDF.y_end', FloorPlanPDF.wall_thickness, pyInt]

/-- C2 (amended): `get_probability` converts `(x, y)` to a grid cell by integer
division by the resolution, returns the stored cell value when the cell is
inside the grid and 0.01 otherwise, and the returned value always lies in
[0.01, 1.0].  For the built-in room generator with wall thickness t = 0.3 m the
geometric part holds provided the outer sizes are integer multiples of the
resolution 0.1 m of at least 0.7 m (`W = nW/10`, `H = nH/10` with
`7 ≤ nW, nH`): the result equals 1.0 strictly inside
`[t, W−t] × [t, H−t]` and equals 0.01 strictly within the wall band or outside
`[0, W] × [0, H]`. -/
theorem C2_get_probability_room (nW nH : ℕ) (hW : 7 ≤ nW) (hH : 7 ≤ nH) :
    (∀ fp : FloorPlanPDF K, ∀ x y : K,
      fp.get_probability x y =
        if 0 ≤ pyInt (x / fp.resolution) ∧ pyInt (x / fp.resolution) < fp.grid_width ∧
            0 ≤ pyInt (y / fp.resolution) ∧ pyInt (y / fp.resolution) < fp.grid_height then
          fp.gridVal (pyInt (y / fp.resolution)) (pyInt (x / fp.resolution))
        else 1 / 100) ∧
    (∀ fp : FloorPlanPDF K, ∀ x y : K,
      1 / 100 ≤ fp.get_probability x y ∧ fp.get_probability x y ≤ 1) ∧
    (∀ x y : K, 3 / 10 < x → x < (nW : K) / 10 - 3 / 10 → 3 / 10 < y →
      y < (nH : K) / 10 - 3 / 10 → (roomFP K nW nH).get_probability x y = 1) ∧
    (∀ x y : K, 0 < x → x < (nW : K) / 10 → 0 < y → y < (nH : K) / 10 →
      (x < 3 / 10 ∨ (nW : K) / 10 - 3 / 10 < x ∨ y < 3 / 10 ∨ (nH : K) / 10 - 3 / 10 < y) →
      (roomFP K nW nH).get_probability x y = 1 / 100) ∧
    (∀ x y : K, (x < 0 ∨ (nW : K) / 10 < x ∨ y < 0 ∨ (nH : K) / 10 < y) →
      (roomFP K nW nH).get_probability x y = 1 / 100) :=
  ⟨fun fp x y => fp.get_probability_def x y,
   fun fp x y => fp.get_probability_bounds x y,
   fun x y hx1 hx2 hy1 hy2 => roomFP_prob_interior nW nH hW hH x y hx1 hx2 hy1 hy2,
   fun x y hx0 hxW hy0 hyH hband => roomFP_prob_band nW nH hW hH x y hx0 hxW hy0 hyH hband,
   fun x y hout => roomFP_prob_outside nW nH (by omega) (by omega) x y hout⟩

/-- Witness for C2: the amended theorem applied to the 10 m by 10 m plan of the
repository (`nW = nH = 100`) at the interior point (5, 5). -/
theorem C2_get_probability_room_witness :
    (7 ≤ 100) ∧ (roomFP ℚ 100 100).get_probability 5 5 = 1 :=
  ⟨by norm_num,
   (C2_get_probability_room (K := ℚ) 100 100 (by norm_num) (by norm_num)).2.2.1 5 5
     (by norm_num) (by norm_num) (by norm_num) (by norm_num)⟩

lemma gauss2_pos (x y mx my s2 : ℝ) (h : 0 < s2) :
    0 < BayesianNavigationFilter.gauss2 x y mx my s2 := by
  unfold BayesianNavigationFilter.gauss2
  have h2 : 0 < 2 * Real.pi * s2 := by
    have := Real.pi_pos
    nlinarith
  exact div_pos (Real.exp_pos _) h2

lemma p_stride_circle_pos (x y xp yp d : ℝ) :
    0 < BayesianNavigationFilter.p_stride_circle x y xp yp d := by
  unfold BayesianNavigationFilter.p_stride_circle BayesianNavigationFilter.sigma_stride
  have hs : (0 : ℝ) < Real.sqrt (2 * Real.pi) := Real.sqrt_pos.mpr (by positivity)
  exact div_pos (Real.exp_pos _) (by positivity)

lemma p_sensor_likelihood_pos (x y xp yp heading d : ℝ) :
    0 < BayesianNavigationFilter.p_sensor_likelihood x y xp yp heading d := by
  unfold BayesianNavigationFilter.p_sensor_likelihood
  exact gauss2_pos _ _ _ _ _ (by unfold BayesianNavigationFilter.sigma_heading; norm_num)

lemma p_previous_posterior_pos (x y cx cy : ℝ) :
    0 < BayesianNavigationFilter.p_previous_posterior x y cx cy := by
  unfold BayesianNavigationFilter.p_previous_posterior
  exact gauss2_pos _ _ _ _ _ (by norm_num)

/-- C3: the log posterior of `BayesianNavigationFilter.posterior_probability` is
the weighted sum of logarithms
`W_fp·log(floorplan) + log(stride_circle) + log(sensor) + log(continuity) +
log(uniform_motion)` with `1e-10` added to every logarithm argument, every
argument strictly positive (so no term is −∞), `W_fp = 1000`, and the
uniform-motion term constantly 1. -/
theorem C3_posterior_formula (fp : FloorPlanPDF ℝ)
    (x y x_prev y_prev heading stride_length cx cy : ℝ) :
    BayesianNavigationFilter.posterior_probability fp x y x_prev y_prev heading stride_length cx cy
        = BayesianNavigationFilter.floor_plan_weight *
            Real.log (fp.get_probability x y + 1 / 10 ^ 10) +
          Real.log (BayesianNavigationFilter.p_stride_circle x y x_prev y_prev stride_length
            + 1 / 10 ^ 10) +
          Real.log (BayesianNavigationFilter.p_sensor_likelihood x y x_prev y_prev heading
            stride_length + 1 / 10 ^ 10) +
          Real.log (BayesianNavigationFilter.p_previous_posterior x y cx cy + 1 / 10 ^ 10) +
          Real.log (BayesianNavigationFilter.p_motion_model x y + 1 / 10 ^ 10) ∧
      BayesianNavigationFilter.floor_plan_weight = 1000 ∧
      BayesianNavigationFilter.p_motion_model x y = 1 ∧
      0 < fp.get_probability x y + 1 / 10 ^ 10 ∧
      0 < BayesianNavigationFilter.p_stride_circle x y x_prev y_prev stride_length + 1 / 10 ^ 10 ∧
      0 < BayesianNavigationFilter.p_sensor_likelihood x y x_prev y_prev heading stride_length
        + 1 / 10 ^ 10 ∧
      0 < BayesianNavigationFilter.p_motion_model x y + 1 / 10 ^ 10 ∧
      0 < BayesianNavigationFilter.p_previous_posterior x y cx cy + 1 / 10 ^ 10 := by
  refine ⟨?_, rfl, rfl, ?_, ?_, ?_, ?_, ?_⟩
  · unfold BayesianNavigationFilter.posterior_probability BayesianNavigationFilter.eps
    ring
  · exact add_pos (fp.get_probability_pos x y) (by norm_num)
  · exact add_pos (p_stride_circle_pos x y x_prev y_prev stride_length) (by norm_num)
  · exact add_pos (p_sensor_likelihood_pos x y x_prev y_prev heading stride_length) (by norm_num)
  · unfold BayesianNavigationFilter.p_motion_model
    norm_num
  · exact add_pos (p_previous_posterior_pos x y cx cy) (by norm_num)

/-- C4: in every Bayesian update the wall-crossing guard samples the 10 evenly
spaced points `prev + (i/10)·(P − prev)`, `i = 1, ..., 10`, along the segment
from the previous position to the forward projection P, fires exactly when some
sampled floor-plan probability is below the wall threshold 0.1, and the
optimizer is started from the previous position when it fires and from P
otherwise. -/
theorem C4_wall_guard (fp : FloorPlanPDF K) (sinF cosF : K → K) (optimize : K × K → K × K)
    (heading stride_length : K) (st : BayesianState K) :
    (path_crosses_wall fp st.x st.y (st.x + stride_length * sinF heading)
          (st.y + stride_length * cosF heading) = true ↔
        ∃ i ∈ Finset.Icc (1 : ℕ) 10, fp.get_probability
          (st.x + ((i : K) / 10) * (st.x + stride_length * sinF heading - st.x))
          (st.y + ((i : K) / 10) * (st.y + stride_length * cosF heading - st.y)) < 1 / 10) ∧
      ((BayesianNavigationFilter.update fp sinF cosF optimize heading stride_length st).x,
        (BayesianNavigationFilter.update fp sinF cosF optimize heading stride_length st).y) =
        optimize
          (if path_crosses_wall fp st.x st.y (st.x + stride_length * sinF heading)
              (st.y + stride_length * cosF heading) = true then (st.x, st.y)
           else (st.x + stride_length * sinF heading, st.y + stride_length * cosF heading)) := by
  constructor
  · constructor
    · intro hcross
      unfold path_crosses_wall at hcross
      rw [List.any_eq_true] at hcross
      obtain ⟨k, hk, hlt⟩ := hcross
      rw [List.mem_range] at hk
      rw [decide_eq_true_eq] at hlt
      unfold samplePoint at hlt
      refine ⟨k + 1, Finset.mem_Icc.mpr ⟨by omega, by omega⟩, ?_⟩
      exact_mod_cast hlt
    · rintro ⟨i, hi, hlt⟩
      rw [Finset.mem_Icc] at hi
      unfold path_crosses_wall
      rw [List.any_eq_true]
      refine ⟨i - 1, List.mem_range.mpr (by omega), ?_⟩
      rw [decide_eq_true_eq]
      unfold samplePoint
      have hi1 : i - 1 + 1 = i := by omega
      rw [hi1]
      exact hlt
  · simp only [BayesianNavigationFilter.update]

lemma inv2_mul_self (S : Matrix (Fin 2) (Fin 2) K) (h : S.det ≠ 0) :
    KalmanFilter.inv2 S * S = 1 := by
  rw [Matrix.det_fin_two] at h
  ext i j
  fin_cases i <;> fin_cases j <;>
    · simp [KalmanFilter.inv2, Matrix.mul_apply, Fin.sum_univ_two, Matrix.one_apply]
      field_simp
      ring

lemma mul_inv2_self (S : Matrix (Fin 2) (Fin 2) K) (h : S.det ≠ 0) :
    S * KalmanFilter.inv2 S = 1 := by
  rw [Matrix.det_fin_two] at h
  ext i j
  fin_cases i <;> fin_cases j <;>
    · simp [KalmanFilter.inv2, Matrix.mul_apply, Fin.sum_univ_two, Matrix.one_apply]
      field_simp
      ring

/-- C8: `predict` propagates the state through the constant-velocity model
`x = F·x`, `P = F·P·Fᵀ + Q`, and `update` applies the standard linear
correction: innovation `z − H·x`, innovation covariance `S = H·P·Hᵀ + R`,
gain `K = P·Hᵀ·S⁻¹`, state `x + K·(z − H·x)`, covariance `(I − K·H)·P`,
with `inv2` the true inverse of any invertible innovation covariance.
Neither function takes the floor plan as an input: no step consults it. -/
theorem C8_kalman_linear (st : KalmanFilter.State K) (z : Fin 2 → K) :
    ((KalmanFilter.predict st).x = (KalmanFilter.F st.dt).mulVec st.x ∧
      (KalmanFilter.predict st).P =
        KalmanFilter.F st.dt * st.P * (KalmanFilter.F st.dt).transpose + KalmanFilter.Q st.dt ∧
      KalmanFilter.F st.dt = !![1, 0, st.dt, 0; 0, 1, 0, st.dt; 0, 0, 1, 0; 0, 0, 0, 1]) ∧
    ((KalmanFilter.update st z).x = st.x +
        (st.P * (KalmanFilter.H (K := K)).transpose *
          KalmanFilter.inv2 (KalmanFilter.H * st.P * (KalmanFilter.H (K := K)).transpose +
            KalmanFilter.R)).mulVec (z - (KalmanFilter.H (K := K)).mulVec st.x) ∧
      (KalmanFilter.update st z).P =
        (1 - st.P * (KalmanFilter.H (K := K)).transpose *
          KalmanFilter.inv2 (KalmanFilter.H * st.P * (KalmanFilter.H (K := K)).transpose +
            KalmanFilter.R) * KalmanFilter.H) * st.P) ∧
    (∀ S : Matrix (Fin 2) (Fin 2) K, S.det ≠ 0 →
      KalmanFilter.inv2 S * S = 1 ∧ S * KalmanFilter.inv2 S = 1) :=
  ⟨⟨rfl, rfl, rfl⟩, ⟨rfl, rfl⟩, fun S h => ⟨inv2_mul_self S h, mul_inv2_self S h⟩⟩

lemma historyPush_spec (h : List (K × K)) (e : K × K) (hlen : h.length ≤ 10) :
    (if 10 < (h ++ [e]).length then (h ++ [e]).drop 1 else h ++ [e]) =
      (if h.length = 10 then h.drop 1 else h) ++ [e] ∧
    (if 10 < (h ++ [e]).length then (h ++ [e]).drop 1 else h ++ [e]).length ≤ 10 := by
  by_cases h10 : h.length = 10
  · rw [if_pos (by simp [h10]), if_pos h10, List.drop_append_of_le_length (by omega)]
    refine ⟨rfl, ?_⟩
    simp [h10]
  · have hlt : ¬ 10 < (h ++ [e]).length := by
      simp only [List.length_append, List.length_cons, List.length_nil]
      omega
    rw [if_neg hlt, if_neg h10]
    refine ⟨rfl, ?_⟩
    simp only [List.length_append, List.length_cons, List.length_nil]
    omega

/-- C9: every Bayesian update appends exactly the newly committed estimate to
the position history; when the buffer already holds 10 entries the oldest is
evicted first, and the buffer never exceeds 10 entries. -/
theorem C9_history_fifo (fp : FloorPlanPDF K) (sinF cosF : K → K) (optimize : K × K → K × K)
    (heading stride_length : K) (st : BayesianState K)
    (hlen : st.position_history.length ≤ 10) :
    (BayesianNavigationFilter.update fp sinF cosF optimize heading stride_length
          st).position_history =
      (if st.position_history.length = 10 then st.position_history.drop 1
       else st.position_history) ++
        [((BayesianNavigationFilter.update fp sinF cosF optimize heading stride_length st).x,
          (BayesianNavigationFilter.update fp sinF cosF optimize heading stride_length st).y)] ∧
    (BayesianNavigationFilter.update fp sinF cosF optimize heading stride_length
        st).position_history.length ≤ 10 := by
  simp only [BayesianNavigationFilter.update]
  exact historyPush_spec st.position_history _ hlen

/-- Witness for C9 on a concrete update over `ℚ` (empty history, constant
optimizer). -/
theorem C9_history_fifo_witness :
    (BayesianNavigationFilter.update (roomFP ℚ 35 60) (fun _ => 0) (fun _ => 0)
        (fun _ => ((0 : ℚ), 0)) 0 (7 / 10) ⟨2, 4, []⟩).position_history = [(0, 0)] ∧
    (BayesianNavigationFilter.update (roomFP ℚ 35 60) (fun _ => 0) (fun _ => 0)
        (fun _ => ((0 : ℚ), 0)) 0 (7 / 10) ⟨2, 4, []⟩).position_history.length ≤ 10 := by
  have h := C9_history_fifo (roomFP ℚ 35 60) (fun _ => 0) (fun _ => 0)
    (fun _ => ((0 : ℚ), 0)) 0 (7 / 10) ⟨2, 4, []⟩ (by simp)
  refine ⟨?_, h.2⟩
  rw [h.1]
  rfl

/-- C5: no estimator validates its inputs.  `ParticleFilter.update_stride`
accepts the non-positive stride length −1 and commits a normally updated state
(the single particle is moved backward from (2, 4) to (2, 3) and the weights
renormalized) instead of failing with an invalid-argument error; neither
`ParticleFilter.update_stride` nor `BayesianNavigationFilter.update` contains
any input check, so garbage strides silently enter the committed history. -/
theorem C5_invalid_input_accepted :
    ParticleFilter.update_stride (roomFP ℚ 35 60) (fun _ => 0) (fun _ => 1)
        (fun _ => 0) (fun _ => 0) (fun _ => 0) 0 (-1) 0 ⟨1, [(2, 4)], [1]⟩ =
      some ⟨1, [(2, 3)], [1]⟩ := by
  have hp : (roomFP ℚ 35 60).get_probability 2 3 = 1 :=
    roomFP_prob_interior 35 60 (by norm_num) (by norm_num) 2 3 (by norm_num) (by norm_num)
      (by norm_num) (by norm_num)
  have hpredict : ParticleFilter.predict (K := ℚ) (fun _ => 0) (fun _ => 1)
      (fun _ => 0) (fun _ => 0) (fun _ => 0) (-1) 0 ⟨1, [(2, 4)], [1]⟩ = ⟨1, [(2, 3)], [1]⟩ := by
    simp only [ParticleFilter.predict, List.mapIdx_cons, List.mapIdx_nil]
    norm_num
  have hupdate : ParticleFilter.update (roomFP ℚ 35 60) ⟨1, [((2 : ℚ), 3)], [1]⟩ =
      ⟨1, [(2, 3)], [1]⟩ := by
    simp only [ParticleFilter.update, List.zipWith_cons_cons, List.zipWith_nil_right, hp]
    norm_num
  unfold ParticleFilter.update_stride
  rw [hpredict, hupdate]
  unfold ParticleFilter.resample
  norm_num

lemma cumsum_length (ws : List K) (a : K) :
    (ParticleFilter.cumsum ws a).length = ws.length := by
  induction ws generalizing a with
  | nil => rfl
  | cons w ws ih => simp [ParticleFilter.cumsum, ih]

lemma cumsum_get_last (ws : List K) (a : K) (hne : ws ≠ []) :
    (ParticleFilter.cumsum ws a).get? (ws.length - 1) = some (a + ws.sum) := by
  induction ws generalizing a with
  | nil => exact absurd rfl hne
  | cons w ws ih =>
    cases ws with
    | nil => simp [ParticleFilter.cumsum]
    | cons w2 ws2 =>
      have h3 := ih (a + w) (by simp)
      have hidx : (w :: w2 :: ws2).length - 1 = ((w2 :: ws2).length - 1) + 1 := by simp
      rw [hidx,
        show ParticleFilter.cumsum (w :: w2 :: ws2) a =
          (a + w) :: ParticleFilter.cumsum (w2 :: ws2) (a + w) from rfl,
        List.get?_cons_succ, h3]
      congr 1
      simp only [List.sum_cons]
      ring

lemma sysAux_complete (u : K) (c : List K) (parts : List (K × K)) (N : ℕ)
    (hcN : c.length = N) (hpN : parts.length = N)
    (hlast : c.get? (N - 1) = some 1) (hu0 : 0 ≤ u) (hu1 : u < 1) :
    ∀ fuel i j acc, i ≤ N → j < N → (N - i) + (N - j) ≤ fuel →
      ∃ res, ParticleFilter.sysAux u c parts N fuel i j acc = some res ∧
        res.length = acc.length + (N - i) := by
  intro fuel
  induction fuel with
  | zero =>
    intro i j acc hi hj hfuel
    exact absurd hfuel (by omega)
  | succ fuel ih =>
    intro i j acc hi hj hfuel
    by_cases hiN : i < N
    · cases hcj : c.get? j with
      | none =>
        rw [List.get?_eq_none] at hcj
        omega
      | some cj =>
        cases hpj : parts.get? j with
        | none =>
          rw [List.get?_eq_none] at hpj
          omega
        | some pj =>
          simp only [ParticleFilter.sysAux, if_pos hiN, hcj, hpj]
          by_cases hcond : ((i : K) + u) / (N : K) < cj
          · rw [if_pos hcond]
            obtain ⟨res, hres, hlen⟩ := ih (i + 1) j (acc ++ [pj]) (by omega) hj (by omega)
            refine ⟨res, hres, ?_⟩
            rw [hlen]
            simp only [List.length_append, List.length_cons, List.length_nil]
            omega
          · rw [if_neg hcond]
            have hj1 : j + 1 < N := by
              rcases Nat.lt_or_ge (j + 1) N with hlt | hge
              · exact hlt
              · exfalso
                have hjN1 : j = N - 1 := by omega
                rw [hjN1, hlast] at hcj
                have hcj1 : cj = 1 := by injection hcj with h; exact h.symm
                have hNpos : (0 : K) < (N : K) := by
                  have h0 : 0 < N := by omega
                  exact_mod_cast h0
                apply hcond
                rw [hcj1, div_lt_one hNpos]
                have hik : (i : K) + 1 ≤ (N : K) := by exact_mod_cast hiN
                linarith
            obtain ⟨res, hres, hlen⟩ := ih i (j + 1) acc hi hj1 (by omega)
            exact ⟨res, hres, hlen⟩
    · simp only [ParticleFilter.sysAux, if_neg hiN]
      refine ⟨acc, rfl, ?_⟩
      have hIN : i = N := by omega
      omega

lemma systematic_complete (u : K) (pf : ParticleFilter K)
    (hp : pf.particles.length = pf.n_particles) (hw : pf.weights.length = pf.n_particles)
    (hN : 1 ≤ pf.n_particles) (hsum : pf.weights.sum = 1) (hu0 : 0 ≤ u) (hu1 : u < 1) :
    ∃ ps, ParticleFilter.systematic u pf = some ps ∧ ps.length = pf.n_particles := by
  have hne : pf.weights ≠ [] := by
    intro hnil
    rw [hnil] at hw
    simp at hw
    omega
  have hlast : (ParticleFilter.cumsum pf.weights 0).get? (pf.n_particles - 1) = some 1 := by
    have h := cumsum_get_last pf.weights 0 hne
    rw [hsum, hw] at h
    simpa using h
  obtain ⟨res, hres, hlen⟩ := sysAux_complete u (ParticleFilter.cumsum pf.weights 0)
    pf.particles pf.n_particles (by rw [cumsum_length, hw]) hp hlast hu0 hu1
    (2 * pf.n_particles + 2) 0 0 [] (by omega) (by omega) (by omega)
  exact ⟨res, hres, by simpa using hlen⟩

lemma sum_map_div (l : List K) (s : K) : (l.map fun w => w / s).sum = l.sum / s := by
  induction l with
  | nil => simp
  | cons a l ih => simp [ih, add_div]

lemma zipWith_weights_nonneg (fp : FloorPlanPDF K) :
    ∀ (ps : List (K × K)) (ws : List K), (∀ w ∈ ws, 0 ≤ w) →
      ∀ w ∈ List.zipWith (fun (p : K × K) w => w * fp.get_probability p.1 p.2) ps ws, 0 ≤ w := by
  intro ps
  induction ps with
  | nil =>
    intro ws _ w hw
    simp at hw
  | cons p ps ih =>
    intro ws hws w hw
    cases ws with
    | nil => simp at hw
    | cons w0 ws =>
      rw [List.zipWith_cons_cons, List.mem_cons] at hw
      rcases hw with rfl | hw
      · exact mul_nonneg (hws w0 (List.mem_cons_self w0 ws))
          (le_of_lt (fp.get_probability_pos _ _))
      · exact ih ws (fun v hv => hws v (List.mem_cons_of_mem w0 hv)) w hw

lemma update_invariant (fp : FloorPlanPDF K) (pf : ParticleFilter K)
    (hN : 1 ≤ pf.n_particles) (hw : pf.weights.length = pf.n_particles)
    (hp : pf.particles.length = pf.n_particles) (hnn : ∀ w ∈ pf.weights, 0 ≤ w) :
    (ParticleFilter.update fp pf).n_particles = pf.n_particles ∧
    (ParticleFilter.update fp pf).particles = pf.particles ∧
    (ParticleFilter.update fp pf).weights.length = pf.n_particles ∧
    (∀ w ∈ (ParticleFilter.update fp pf).weights, 0 ≤ w) ∧
    (ParticleFilter.update fp pf).weights.sum = 1 := by
  have hNK : ((pf.n_particles : K)) ≠ 0 := Nat.cast_ne_zero.mpr (by omega)
  unfold ParticleFilter.update
  dsimp only
  by_cases hpos : 0 < (List.zipWith (fun (p : K × K) w => w * fp.get_probability p.1 p.2)
      pf.particles pf.weights).sum
  · rw [if_pos hpos]
    refine ⟨rfl, rfl, ?_, ?_, ?_⟩
    · rw [List.length_map, List.length_zipWith, hw, hp]
      omega
    · intro w hwm
      rw [List.mem_map] at hwm
      obtain ⟨v, hv, rfl⟩ := hwm
      exact div_nonneg (zipWith_weights_nonneg fp pf.particles pf.weights hnn v hv)
        (le_of_lt hpos)
    · rw [sum_map_div, div_self (ne_of_gt hpos)]
  · rw [if_neg hpos]
    refine ⟨rfl, rfl, by simp, ?_, ?_⟩
    · intro w hwm
      rw [List.mem_replicate] at hwm
      rcases hwm with ⟨-, rfl⟩
      positivity
    · rw [List.sum_replicate, nsmul_eq_mul]
      field_simp

lemma predict_invariant (sinF cosF : K → K) (nh nx ny : ℕ → K) (d h : K)
    (pf : ParticleFilter K) :
    (ParticleFilter.predict sinF cosF nh nx ny d h pf).n_particles = pf.n_particles ∧
    (ParticleFilter.predict sinF cosF nh nx ny d h pf).particles.length =
      pf.particles.length ∧
    (ParticleFilter.predict sinF cosF nh nx ny d h pf).weights = pf.weights := by
  refine ⟨rfl, ?_, rfl⟩
  simp [ParticleFilter.predict]

lemma resample_invariant (u : K) (pf : ParticleFilter K)
    (hN : 1 ≤ pf.n_particles) (hw : pf.weights.length = pf.n_particles)
    (hp : pf.particles.length = pf.n_particles) (hnn : ∀ w ∈ pf.weights, 0 ≤ w)
    (hsum : pf.weights.sum = 1) (hu0 : 0 ≤ u) (hu1 : u < 1) :
    ∃ pf', ParticleFilter.resample u pf = some pf' ∧
      pf'.n_particles = pf.n_particles ∧
      pf'.particles.length = pf.n_particles ∧ pf'.weights.length = pf.n_particles ∧
      (∀ w ∈ pf'.weights, 0 ≤ w) ∧ pf'.weights.sum = 1 := by
  have hNK : ((pf.n_particles : K)) ≠ 0 := Nat.cast_ne_zero.mpr (by omega)
  unfold ParticleFilter.resample
  dsimp only
  by_cases hcond : 1 / (pf.weights.map fun w => w ^ 2).sum < (pf.n_particles : K) / 2
  · rw [if_pos hcond]
    obtain ⟨ps, hps, hlen⟩ := systematic_complete u pf hp hw hN hsum hu0 hu1
    rw [hps]
    refine ⟨_, rfl, rfl, hlen, by simp, ?_, ?_⟩
    · intro w hwm
      rw [List.mem_replicate] at hwm
      rcases hwm with ⟨-, rfl⟩
      positivity
    · rw [List.sum_replicate, nsmul_eq_mul]
      field_simp
  · rw [if_neg hcond]
    exact ⟨pf, rfl, rfl, hp, hw, hnn, hsum⟩

/-- C10: in the systematic-resampling branch, for `N` non-negative weights
summing exactly to 1 (and a uniform draw `u` in `[0, 1)`), the loop returns
`some` result of length `N`: every read `particles[j]` and `cumsum[j]` stayed
in bounds (the inner index `j` never exceeded `N − 1`), the `while` loop
terminated, and all `N` slots of the new particle array were assigned. -/
theorem C10_systematic_safe (u : K) (pf : ParticleFilter K)
    (hp : pf.particles.length = pf.n_particles) (hw : pf.weights.length = pf.n_particles)
    (hN : 1 ≤ pf.n_particles) (hnn : ∀ w ∈ pf.weights, 0 ≤ w) (hsum : pf.weights.sum = 1)
    (hu0 : 0 ≤ u) (hu1 : u < 1) :
    ∃ ps, ParticleFilter.systematic u pf = some ps ∧ ps.length = pf.n_particles :=
  systematic_complete u pf hp hw hN hsum hu0 hu1

/-- Witness for C10 on the one-particle filter with weight vector `[1]`. -/
theorem C10_systematic_safe_witness :
    ∃ ps, ParticleFilter.systematic (0 : ℚ) ⟨1, [(2, 4)], [1]⟩ = some ps ∧ ps.length = 1 :=
  C10_systematic_safe 0 ⟨1, [(2, 4)], [1]⟩ rfl rfl (by norm_num)
    (by intro w hw; rw [List.mem_singleton] at hw; rw [hw]; norm_num) (by norm_num) le_rfl (by norm_num)

/-- C7: `resample` computes the effective sample size `1/Σw²` and resamples
only when it is below `N/2`; when it resamples, the particles are produced by
the systematic-resampling loop and the weights are reset to the uniform vector
`1/N`, and otherwise particles and weights are left unchanged. -/
theorem C7_conditional_resample (u : K) (pf : ParticleFilter K)
    (hp : pf.particles.length = pf.n_particles) (hw : pf.weights.length = pf.n_particles)
    (hN : 1 ≤ pf.n_particles) (hnn : ∀ w ∈ pf.weights, 0 ≤ w) (hsum : pf.weights.sum = 1)
    (hu0 : 0 ≤ u) (hu1 : u < 1) :
    ((pf.n_particles : K) / 2 ≤ 1 / (pf.weights.map fun w => w ^ 2).sum →
      ParticleFilter.resample u pf = some pf) ∧
    (1 / (pf.weights.map fun w => w ^ 2).sum < (pf.n_particles : K) / 2 →
      ∃ ps, ParticleFilter.systematic u pf = some ps ∧ ps.length = pf.n_particles ∧
        ParticleFilter.resample u pf =
          some ⟨pf.n_particles, ps, List.replicate pf.n_particles
            ((1 : K) / (pf.n_particles : K))⟩) := by
  constructor
  · intro hge
    unfold ParticleFilter.resample
    rw [if_neg (not_lt.mpr hge)]
  · intro hlt
    obtain ⟨ps, hps, hlen⟩ := systematic_complete u pf hp hw hN hsum hu0 hu1
    refine ⟨ps, hps, hlen, ?_⟩
    unfold ParticleFilter.resample
    rw [if_pos hlt, hps]
    rfl

/-- Witness for C7: on the one-particle filter with weight `[1]` the effective
sample size is 1 ≥ N/2, so resample leaves the state unchanged. -/
theorem C7_conditional_resample_witness :
    (((1 : ℕ) : ℚ) / 2 ≤ 1 / (([(1 : ℚ)]).map fun w => w ^ 2).sum) ∧
    ParticleFilter.resample (0 : ℚ) ⟨1, [(2, 4)], [1]⟩ = some ⟨1, [(2, 4)], [1]⟩ :=
  ⟨by norm_num,
   (C7_conditional_resample 0 ⟨1, [(2, 4)], [1]⟩ rfl rfl (by norm_num)
      (by intro w hw; rw [List.mem_singleton] at hw; rw [hw]; norm_num) (by norm_num) le_rfl
      (by norm_num)).1 (by norm_num)⟩

/-- C6: after every `update_stride` on a filter with `N ≥ 1` particles the
weights are non-negative and sum exactly to 1, and particle and weight lists
both still have length `N`; moreover, whenever the reweighting total is not
positive, `update` resets the weights to the uniform vector `1/N` instead of
dividing by it. -/
theorem C6_particle_invariants (fp : FloorPlanPDF K) (sinF cosF : K → K) (nh nx ny : ℕ → K)
    (u stride_length heading : K) (pf : ParticleFilter K)
    (hN : 1 ≤ pf.n_particles) (hw : pf.weights.length = pf.n_particles)
    (hp : pf.particles.length = pf.n_particles) (hnn : ∀ w ∈ pf.weights, 0 ≤ w)
    (hu0 : 0 ≤ u) (hu1 : u < 1) :
    (∃ pf', ParticleFilter.update_stride fp sinF cosF nh nx ny u stride_length heading pf
        = some pf' ∧
      pf'.weights.sum = 1 ∧ (∀ w ∈ pf'.weights, 0 ≤ w) ∧
      pf'.particles.length = pf.n_particles ∧ pf'.weights.length = pf.n_particles) ∧
    (∀ pf2 : ParticleFilter K,
      ¬ 0 < (List.zipWith (fun (p : K × K) w => w * fp.get_probability p.1 p.2)
          pf2.particles pf2.weights).sum →
      (ParticleFilter.update fp pf2).weights =
        List.replicate pf2.n_particles ((1 : K) / (pf2.n_particles : K))) := by
  constructor
  · obtain ⟨hn1, hp1, hw1⟩ := predict_invariant sinF cosF nh nx ny stride_length heading pf
    set pf1 := ParticleFilter.predict sinF cosF nh nx ny stride_length heading pf with hpf1
    obtain ⟨hn2, hp2, hw2, hnn2, hsum2⟩ := update_invariant fp pf1
      (by rw [hn1]; exact hN) (by rw [hw1, hw, hn1]) (by rw [hp1, hp, hn1])
      (by rw [hw1]; exact hnn)
    set pf2 := ParticleFilter.update fp pf1 with hpf2
    obtain ⟨pf3, hres, hn3, hp3, hw3, hnn3, hsum3⟩ := resample_invariant u pf2
      (by rw [hn2, hn1]; exact hN) (by rw [hw2, hn2]) (by rw [hp2, hp1, hp, hn2, hn1])
      hnn2 hsum2 hu0 hu1
    refine ⟨pf3, ?_, hsum3, hnn3, ?_, ?_⟩
    · unfold ParticleFilter.update_stride
      exact hres
    · exact hp3.trans (hn2.trans hn1)
    · exact hw3.trans (hn2.trans hn1)
  · intro pf2 hns
    unfold ParticleFilter.update
    dsimp only
    rw [if_neg hns]

/-- Witness for C6: a concrete one-particle `update_stride` over `ℚ`. -/
theorem C6_particle_invariants_witness :
    ∃ pf', ParticleFilter.update_stride (roomFP ℚ 35 60) (fun _ => 0) (fun _ => 1)
        (fun _ => 0) (fun _ => 0) (fun _ => 0) 0 (7 / 10) 0 ⟨1, [(2, 4)], [1]⟩ = some pf' ∧
      pf'.weights.sum = 1 ∧ (∀ w ∈ pf'.weights, 0 ≤ w) ∧
      pf'.particles.length = 1 ∧ pf'.weights.length = 1 :=
  (C6_particle_invariants (roomFP ℚ 35 60) (fun _ => 0) (fun _ => 1) (fun _ => 0) (fun _ => 0)
      (fun _ => 0) 0 (7 / 10) 0 ⟨1, [(2, 4)], [1]⟩ (by norm_num) rfl rfl
      (by intro w hw; rw [List.mem_singleton] at hw; rw [hw]; norm_num) le_rfl (by norm_num)).1

end DataFusion
